import Mathlib

/-!
Verification of the poker engine of this repository against its
specification.  The definitions below are shallow embeddings of the
JavaScript/TypeScript source: the card and deck library
(src/app/lib/deck.ts) and the socket game server (the unnamed server
file holding createGame, startGame, playerAction, advanceToNextPhase,
determineWinner, resetGame and the server-side hand evaluator).
JavaScript chip amounts are modelled as Int (they may go negative,
e.g. when a blind exceeds a stack), array indices as Nat, and thrown
exceptions as explicit error values.  Randomness (Math.random) is
modelled by a parameter js : Nat -> Nat supplying, for each loop index
i of the Fisher-Yates shuffle, the chosen swap target.
-/

namespace Poker

/-- Suits, as in the suits array of both deck modules. -/
inductive Suit where
  | hearts | diamonds | clubs | spades
  deriving DecidableEq, Repr

/-- Ranks, as in the ranks array: A,2..10,J,Q,K. -/
inductive Rank where
  | ace | two | three | four | five | six | seven | eight | nine | ten
  | jack | queen | king
  deriving DecidableEq, Repr

/-- Numeric rank values, the rankValues table of evaluateFiveCardHand
(2..10 face value, J 11, Q 12, K 13, A 14). -/
def rankValue : Rank → Nat
  | Rank.two => 2
  | Rank.three => 3
  | Rank.four => 4
  | Rank.five => 5
  | Rank.six => 6
  | Rank.seven => 7
  | Rank.eight => 8
  | Rank.nine => 9
  | Rank.ten => 10
  | Rank.jack => 11
  | Rank.queen => 12
  | Rank.king => 13
  | Rank.ace => 14

/-- The rank strings used as object keys in the source. -/
def rankStr : Rank → String
  | Rank.two => "2"
  | Rank.three => "3"
  | Rank.four => "4"
  | Rank.five => "5"
  | Rank.six => "6"
  | Rank.seven => "7"
  | Rank.eight => "8"
  | Rank.nine => "9"
  | Rank.ten => "10"
  | Rank.jack => "J"
  | Rank.queen => "Q"
  | Rank.king => "K"
  | Rank.ace => "A"

/-- Embeds getCardName: readable card name from a rank. -/
def getCardName : Rank → String
  | Rank.ace => "Ace"
  | Rank.king => "King"
  | Rank.queen => "Queen"
  | Rank.jack => "Jack"
  | r => rankStr r

/-- Suit strings, as stored in card objects. -/
def suitStr : Suit → String
  | Suit.hearts => "hearts"
  | Suit.diamonds => "diamonds"
  | Suit.clubs => "clubs"
  | Suit.spades => "spades"

/-- A card object: a rank and a suit. -/
structure Card where
  rank : Rank
  suit : Suit
  deriving DecidableEq, Repr

/-- The result record of the hand evaluators:
rank (category name), value (comparable value), description. -/
structure HandResult where
  rank : String
  value : Nat
  description : String
  deriving DecidableEq, Repr

/-- Distinct keys of the rankCounts object in first-occurrence order
(JavaScript object string keys enumerate in insertion order); seen
accumulates the keys already emitted. -/
def keysAux (seen : List Rank) : List Rank → List Rank
  | [] => []
  | r :: rs => if seen.contains r then keysAux seen rs else r :: keysAux (r :: seen) rs

/-- Distinct keys of the rankCounts object, first occurrence first. -/
def keysInOrder (l : List Rank) : List Rank :=
  keysAux [] l

/-- Count of cards of a given rank, i.e. rankCounts[r]. -/
def countRank (cards : List Card) (r : Rank) : Nat :=
  (cards.filter (fun c => c.rank == r)).length

/-- Insertion of one element into a list sorted by the boolean
predicate le (le x y means x goes before y). -/
def insertLe (le : Rank → Rank → Bool) (x : Rank) : List Rank → List Rank
  | [] => [x]
  | y :: ys => if le x y then x :: y :: ys else y :: insertLe le x ys

/-- Sorting used to embed JavaScript Array.sort on the distinct rank
keys.  The comparators in the source order by rankValue, which is
injective on ranks, so the keys have pairwise distinct sort keys and
every correct sort (the engine one included) returns this same list. -/
def sortRanks (le : Rank → Rank → Bool) (l : List Rank) : List Rank :=
  match l with
  | [] => []
  | x :: xs => insertLe le x (sortRanks le xs)

/-- Insertion of one Nat into an ascending list. -/
def insertNat (x : Nat) : List Nat → List Nat
  | [] => [x]
  | y :: ys => if x ≤ y then x :: y :: ys else y :: insertNat x ys

/-- Ascending numeric sort used to embed cardValues.sort((a,b)=>a-b);
on a multiset of numbers every correct sort returns this list. -/
def sortNats : List Nat → List Nat
  | [] => []
  | x :: xs => insertNat x (sortNats xs)

/-- Embeds the straight loop: for i in 1..len-1 require
cardValues[i] == cardValues[i-1] + 1, short-circuiting on failure. -/
def consecCheck : List Nat → Bool
  | a :: b :: rest => b == a + 1 && consecCheck (b :: rest)
  | _ => true

/-- Embeds the descending positional weight loop of the Flush and High
Card branches: value += rankValues[ranksSorted[i]] * 100 ^ (4 - i),
accumulated from start index i. -/
def weightSum : Nat → List Rank → Nat
  | _, [] => 0
  | i, r :: rest => rankValue r * 100 ^ (4 - i) + weightSum (i + 1) rest

/-- The distinct rank keys of a hand (the ranks variable of
evaluateFiveCardHand). -/
def keysOf (cards : List Card) : List Rank :=
  keysInOrder (cards.map (fun c => c.rank))

/-- The ranksSorted variable: the keys ordered by descending rank
value. -/
def ranksSortedOf (cards : List Card) : List Rank :=
  sortRanks (fun a b => rankValue b ≤ rankValue a) (keysOf cards)

/-- The pairs variable: ranks occurring exactly twice, in the sorted
key order (the source loop runs over the array aliased by the sort). -/
def pairsOf (cards : List Card) : List Rank :=
  (ranksSortedOf cards).filter (fun r => countRank cards r == 2)

/-- The threeOfAKind variable; among 5 cards at most one rank can
occur three times, so the single surviving assignment of the source
loop is this find?. -/
def threeOf (cards : List Card) : Option Rank :=
  (ranksSortedOf cards).find? (fun r => countRank cards r == 3)

/-- The fourOfAKind variable, by the same argument. -/
def fourOf (cards : List Card) : Option Rank :=
  (ranksSortedOf cards).find? (fun r => countRank cards r == 4)

/-- The isFlush check: every card shares the suit of the first one
(an empty list passes vacuously, as every() does). -/
def isFlushOf (cards : List Card) : Bool :=
  cards.all (fun c => (c.suit == (cards.headD ⟨Rank.ace, Suit.hearts⟩).suit))

/-- The sorted numeric card values (the cardValues variable before
the wheel adjustment). -/
def cardVals (cards : List Card) : List Nat :=
  sortNats (cards.map (fun c => rankValue c.rank))

/-- The wheel special case: not already a straight, and holding ace,
2, 3, 4 and 5. -/
def wheelTest (cards : List Card) : Bool :=
  !consecCheck (cardVals cards) && (cardVals cards).contains 14 &&
    (cardVals cards).contains 2 && (cardVals cards).contains 3 &&
    (cardVals cards).contains 4 && (cardVals cards).contains 5

/-- The isStraight variable after the wheel adjustment. -/
def straightTest (cards : List Card) : Bool :=
  consecCheck (cardVals cards) || wheelTest cards

/-- The cardValues variable after the wheel adjustment: for the wheel
the ace (the last sorted value) is removed and 1 is prepended. -/
def cardVals2 (cards : List Card) : List Nat :=
  if wheelTest cards then 1 :: (cardVals cards).dropLast else cardVals cards

/-- Embeds evaluateFiveCardHand, which is textually identical in
deck.ts and in the server file; its local variables are the named
helper functions above.  Lookups the source performs only inside a
guarded branch (kickers, pairs[0]) are modelled with getD defaults
that are never reached when the guard holds. -/
def evaluateFiveCardHand (cards : List Card) : HandResult :=
  let threeVal := ((threeOf cards).map rankValue).getD 0
  let pairs0 := (pairsOf cards).headD Rank.ace
  let suit0 := suitStr (cards.headD ⟨Rank.ace, Suit.hearts⟩).suit
  if isFlushOf cards && straightTest cards && (cardVals2 cards).getD 4 0 == 14 &&
      (cardVals2 cards).getD 0 0 == 10 then
    { rank := "Royal Flush", value := 9 * 1000000,
      description := "Royal Flush of " ++ suit0 }
  else if isFlushOf cards && straightTest cards then
    { rank := "Straight Flush", value := 8 * 1000000 + (cardVals2 cards).getD 4 0,
      description := "Straight Flush, " ++ getCardName ((ranksSortedOf cards).headD Rank.ace) ++
        " high" }
  else if (fourOf cards).isSome then
    let f := (fourOf cards).getD Rank.ace
    let kicker := (((ranksSortedOf cards).find? (fun r => r != f)).map rankValue).getD 0
    { rank := "Four of a Kind", value := 7 * 1000000 + rankValue f * 100 + kicker,
      description := "Four of a Kind, " ++ getCardName f ++ "s" }
  else if (threeOf cards).isSome && decide (0 < (pairsOf cards).length) then
    { rank := "Full House", value := 6 * 1000000 + threeVal * 100 + rankValue pairs0,
      description := "Full House, " ++ getCardName ((threeOf cards).getD Rank.ace) ++
        "s full of " ++ getCardName pairs0 ++ "s" }
  else if isFlushOf cards then
    { rank := "Flush", value := 5 * 1000000 + weightSum 0 (ranksSortedOf cards),
      description := "Flush, " ++ getCardName ((ranksSortedOf cards).headD Rank.ace) ++ " high" }
  else if straightTest cards then
    { rank := "Straight", value := 4 * 1000000 + (cardVals2 cards).getD 4 0,
      description := "Straight, " ++ getCardName ((ranksSortedOf cards).headD Rank.ace) ++
        " high" }
  else if (threeOf cards).isSome then
    let t := (threeOf cards).getD Rank.ace
    let kickers := (ranksSortedOf cards).filter (fun r => r != t)
    { rank := "Three of a Kind",
      value := 3 * 1000000 + threeVal * 10000 +
        ((kickers.map rankValue).getD 0 0) * 100 + ((kickers.map rankValue).getD 1 0),
      description := "Three of a Kind, " ++ getCardName t ++ "s" }
  else if decide (2 ≤ (pairsOf cards).length) then
    let sortedPairs := sortRanks (fun a b => rankValue b ≤ rankValue a) (pairsOf cards)
    let kicker :=
      (((ranksSortedOf cards).find? (fun r => !((pairsOf cards).contains r))).map rankValue).getD 0
    { rank := "Two Pair",
      value := 2 * 1000000 + rankValue (sortedPairs.headD Rank.ace) * 10000 +
        ((sortedPairs.map rankValue).getD 1 0) * 100 + kicker,
      description := "Two Pair, " ++ getCardName (sortedPairs.headD Rank.ace) ++
        "s and " ++ getCardName (sortedPairs.getD 1 Rank.ace) ++ "s" }
  else if (pairsOf cards).length == 1 then
    let kickers := (ranksSortedOf cards).filter (fun r => r != pairs0)
    { rank := "One Pair",
      value := 1 * 1000000 + rankValue pairs0 * 10000 +
        ((kickers.map rankValue).getD 0 0) * 1000 + ((kickers.map rankValue).getD 1 0) * 10 +
        ((kickers.map rankValue).getD 2 0),
      description := "Pair of " ++ getCardName pairs0 ++ "s" }
  else
    { rank := "High Card", value := weightSum 0 (ranksSortedOf cards),
      description := "High Card, " ++ getCardName ((ranksSortedOf cards).headD Rank.ace) }

/-- Embeds getCombinations (identical in both files): the backtracking
enumeration of all k-card subsets in index order. -/
def getCombinations : List Card → Nat → List (List Card)
  | _, 0 => [[]]
  | [], _ + 1 => []
  | c :: cs, k + 1 =>
    (getCombinations cs k).map (fun combo => c :: combo) ++ getCombinations cs (k + 1)

end Poker

namespace Server

open Poker

/-- Embeds the server findBestHand: scan all 5-card combinations and
keep the first one of strictly maximal value. -/
def findBestHand (cards : List Card) : HandResult :=
  (getCombinations cards 5).foldl
    (fun best combo =>
      let evaluation := evaluateFiveCardHand combo
      if decide (best.value < evaluation.value) then evaluation else best)
    { rank := "High Card", value := 0, description := "High Card" }

/-- Embeds the server evaluateHand: fewer than 5 cards yields the
sentinel Invalid Hand record (an ordinary return, not a thrown error);
more than 5 cards delegates to findBestHand. -/
def evaluateHand (cards : List Card) : HandResult :=
  if cards.length < 5 then
    { rank := "Invalid Hand", value := 0, description := "Not enough cards" }
  else if 5 < cards.length then
    findBestHand cards
  else
    evaluateFiveCardHand cards

end Server

namespace Deck

open Poker

/-- Errors thrown by the deck.ts library, named after the error
taxonomy of the specification; the source throws Error objects whose
messages identify the same two conditions. -/
inductive DeckErr where
  | insufficientCards
  | invalidHandSize
  deriving DecidableEq, Repr

/-- Embeds deck.ts dealCards: taking more cards than the deck holds
throws; otherwise the first count cards are returned together with the
rest of the deck, both by slicing, leaving the input deck untouched. -/
def dealCards (deck : List Card) (count : Nat) : Except DeckErr (List Card × List Card) :=
  if deck.length < count then
    Except.error DeckErr.insufficientCards
  else
    Except.ok (deck.take count, deck.drop count)

/-- Embeds the deck.ts findBestHand: exactly 5 cards are evaluated
directly, otherwise all 5-card combinations are scanned. -/
def findBestHand (cards : List Card) : HandResult :=
  if cards.length == 5 then
    evaluateFiveCardHand cards
  else
    (getCombinations cards 5).foldl
      (fun best combo =>
        let evaluation := evaluateFiveCardHand combo
        if decide (best.value < evaluation.value) then evaluation else best)
      { rank := "High Card", value := 0, description := "" }

/-- Embeds the deck.ts evaluateHand: fewer than 5 cards throws. -/
def evaluateHand (cards : List Card) : Except DeckErr HandResult :=
  if cards.length < 5 then
    Except.error DeckErr.invalidHandSize
  else
    Except.ok (findBestHand cards)

end Deck

namespace Poker

/-- Embeds the destructuring swap [a[i],a[j]] = [a[j],a[i]] of the
Fisher-Yates loop.  Both indices are always in range in the source
(i < length and j = floor(random*(i+1)) <= i), so the out-of-range
fallback below is never taken there. -/
def swapAt (l : List Card) (i j : Nat) : List Card :=
  match l.get? i, l.get? j with
  | some a, some b => (l.set i b).set j a
  | _, _ => l

/-- The Fisher-Yates loop of shuffleDeck, counting i downwards;
js i is the swap target Math.floor(Math.random() * (i + 1)). -/
def shuffleLoop (js : Nat → Nat) : Nat → List Card → List Card
  | 0, l => l
  | k + 1, l => shuffleLoop js k (swapAt l (k + 1) (js (k + 1)))

/-- Embeds shuffleDeck (identical in deck.ts and the server file):
copy the deck and swap position i with position js i for
i = length-1 down to 1. -/
def shuffleDeck (js : Nat → Nat) (deck : List Card) : List Card :=
  shuffleLoop js (deck.length - 1) deck

/-- The 52-card build order of createDeck: suits outer, ranks inner
with A first. -/
def deckList : List Card :=
  [Suit.hearts, Suit.diamonds, Suit.clubs, Suit.spades].flatMap (fun s =>
    [Rank.ace, Rank.two, Rank.three, Rank.four, Rank.five, Rank.six, Rank.seven,
      Rank.eight, Rank.nine, Rank.ten, Rank.jack, Rank.queen, Rank.king].map
      (fun r => { rank := r, suit := s }))

/-- Embeds createDeck of the server file: build all 52 cards and
shuffle them. -/
def createDeck (js : Nat → Nat) : List Card :=
  shuffleDeck js deckList

end Poker

namespace Server

open Poker

/-- A player object of the server file, with the fields created by
createGame/joinGame.  id is the current socket id (rebound on
reconnect), chips/bet are JavaScript numbers (Int here), cards the
hole cards. -/
structure Player where
  id : String
  name : String
  chips : Int
  cards : List Card
  bet : Int
  folded : Bool
  isDealer : Bool
  isCurrentTurn : Bool
  isConnected : Bool
  position : Nat
  isWinner : Bool
  handDescription : Option String
  deriving DecidableEq, Repr

/-- The phase strings of the game object. -/
inductive Phase where
  | waiting | dealing | betting | flop | turn | river | showdown
  deriving DecidableEq, Repr

/-- A game object of the server file. -/
structure Game where
  id : String
  players : List Player
  deck : List Card
  communityCards : List Card
  pot : Int
  currentBet : Int
  phase : Phase
  currentPlayerIndex : Nat
  dealerIndex : Nat
  smallBlind : Int
  bigBlind : Int
  lastRaisePlayerId : Option String
  deriving DecidableEq, Repr

/-- The error messages emitted by the server handlers, one constructor
per distinct message: notYourTurn is the message Not your turn,
mustCallOrRaise is Cannot check must call or raise, and so on;
insufficientCards stands for the exception thrown by dealCards when
the deck is too short. -/
inductive Err where
  | notEnoughPlayers
  | alreadyStarted
  | notYourTurn
  | mustCallOrRaise
  | invalidRaiseAmount
  | belowMinimumRaise
  | insufficientChips
  | invalidAction
  | insufficientCards
  | playerNotFound
  deriving DecidableEq, Repr

/-- The four recognised kinds of the playerAction switch; the raise
payload is the client-sent amount. -/
inductive Action where
  | fold
  | check
  | call
  | raise (amount : Int)
  deriving DecidableEq, Repr

/-- The eligibility test of findNextActivePlayer: not folded, chips
remaining, connected. -/
def isActive (p : Player) : Bool :=
  !p.folded && decide (0 < p.chips) && p.isConnected

/-- Eligibility of the seat at index j, reading through the players
array as the source loop does. -/
def activeAt (ps : List Player) (j : Nat) : Bool :=
  match ps.get? j with
  | some p => isActive p
  | none => false

/-- The while loop of findNextActivePlayer: starting from index next,
step (next+1) % length until either an eligible seat is found or the
walk returns to curr.  The fuel argument (length at the top call) is
an upper bound on the number of iterations, reached only if curr is
never met, which cannot happen for curr < length. -/
def findNextGo (ps : List Player) (curr : Nat) : Nat → Nat → Option Nat
  | _, 0 => none
  | next, fuel + 1 =>
    if next == curr then none
    else if activeAt ps next then some next
    else findNextGo ps curr ((next + 1) % ps.length) fuel

/-- Embeds findNextActivePlayer; none stands for the -1 of the
source. -/
def findNextActivePlayer (ps : List Player) (curr : Nat) : Option Nat :=
  findNextGo ps curr ((curr + 1) % ps.length) ps.length

/-- The players.forEach((p,i) => p.isCurrentTurn = i === next) loop,
carrying the running index. -/
def setTurnFlags (j : Nat) : Nat → List Player → List Player
  | _, [] => []
  | idx, p :: rest => { p with isCurrentTurn := idx == j } :: setTurnFlags j (idx + 1) rest

/-- The turn hand-off of playerAction: flag exactly seat next and
record it as currentPlayerIndex. -/
def setTurn (g : Game) (next : Nat) : Game :=
  { g with players := setTurnFlags next 0 g.players, currentPlayerIndex := next }

/-- Numbered players list, as produced by iterating with the index. -/
def indexedPlayers : Nat → List Player → List (Nat × Player)
  | _, [] => []
  | idx, p :: rest => (idx, p) :: indexedPlayers (idx + 1) rest

/-- The winner-payout block shared by both determineWinner branches:
the seat at index w (a reference into the updated players array in
the source) receives the whole pot, is flagged as winner with the
given hand description, and the pot is zeroed. -/
def awardPot (g : Game) (ps : List Player) (w : Nat) (desc : Player → Option String) : Game :=
  match ps.get? w with
  | some q =>
    { g with
      players := ps.set w ({ q with
        chips := q.chips + g.pot
        isWinner := true
        handDescription := desc q })
      pot := 0 }
  | none => { g with players := ps }

/-- The winner selection of determineWinner: the source sorts a copy
of the candidate list with the stable Array.sort((a,b) => b.value -
a.value) and takes element 0, which is the first maximum of
evaluateHand value in evaluation order; the fold below keeps the
incumbent unless a strictly greater value appears, computing that
same first maximum. -/
def bestOf (community : List Card) (first : Nat × Player) (rest : List (Nat × Player)) :
    Nat × Player :=
  rest.foldl
    (fun best cur =>
      if decide ((Server.evaluateHand (best.2.cards ++ community)).value <
          (Server.evaluateHand (cur.2.cards ++ community)).value) then cur else best)
    first

/-- Embeds determineWinner.  The source resets the transient winner
fields, collects the non-folded players (references into the array,
here index-player pairs), and if any remain pays the whole pot to a
single winner: the lone survivor (winning by default), or the seat
with the first maximal hand value among the candidates. -/
def determineWinner (g : Game) : Game :=
  let ps := g.players.map (fun p => { p with isWinner := false, handDescription := none })
  let act := (indexedPlayers 0 ps).filter (fun pr => !pr.2.folded)
  match act with
  | [] => { g with players := ps }
  | [(i, _)] => awardPot g ps i (fun _ => some ("Win by default (all others folded)"))
  | first :: rest =>
    let winner := bestOf g.communityCards first rest
    awardPot g ps winner.1
      (fun q => some (Server.evaluateHand (q.cards ++ g.communityCards)).description)

/-- Embeds the synchronous part of resetGame: back to waiting, clear
table state, fresh shuffled deck, advance the dealer button, reset
every player, re-flag the new dealer.  The setTimeout body that may
auto-start the next hand 3 seconds later is a deferred timer outside
the synchronous transition and is not part of this step. -/
def resetGame (js : Nat → Nat) (g : Game) : Game :=
  let dealerIndex := (g.dealerIndex + 1) % g.players.length
  let ps := g.players.map (fun p => { p with
    cards := ([] : List Card)
    bet := (0 : Int)
    folded := false
    isCurrentTurn := false
    isDealer := false
    isWinner := false
    handDescription := (none : Option String) })
  let ps :=
    if decide (0 < ps.length) then
      match ps.get? dealerIndex with
      | some q => ps.set dealerIndex { q with isDealer := true }
      | none => ps
    else ps
  { g with
    phase := Phase.waiting
    communityCards := []
    pot := 0
    currentBet := 0
    lastRaisePlayerId := none
    deck := createDeck js
    dealerIndex := dealerIndex
    players := ps }

/-- The code at the end of advanceToNextPhase: unless the game is now
at showdown, hand the turn to the first eligible seat after the
dealer (when one exists). -/
def pickFirstAfterDealer (g : Game) : Option Err × Game :=
  if g.phase != Phase.showdown then
    match findNextActivePlayer g.players g.dealerIndex with
    | some j => (none, setTurn g j)
    | none => (none, g)
  else (none, g)

/-- The phase switch of advanceToNextPhase, run after the bet reset:
flop deals 3 community cards (only if none are out yet), turn and
river one each behind their idempotence guards, showdown tops the
board up to 5 and settles via determineWinner, and a second advance
from showdown resets the game.  A dealCards exception aborts the
handler at that point, leaving the partially updated game in the
registry: that partial state is returned alongside the
insufficientCards error. -/
def advancePhaseCore (js : Nat → Nat) (g : Game) : Option Err × Game :=
  match g.phase with
  | Phase.betting =>
    let g := { g with phase := Phase.flop }
    if g.communityCards.length == 0 then
      match Deck.dealCards g.deck 3 with
      | Except.error _ => (some Err.insufficientCards, g)
      | Except.ok (cs, rest) =>
        pickFirstAfterDealer { g with communityCards := cs, deck := rest }
    else pickFirstAfterDealer g
  | Phase.flop =>
    let g := { g with phase := Phase.turn }
    if g.communityCards.length == 3 then
      match Deck.dealCards g.deck 1 with
      | Except.error _ => (some Err.insufficientCards, g)
      | Except.ok (cs, rest) =>
        pickFirstAfterDealer { g with communityCards := g.communityCards ++ cs, deck := rest }
    else pickFirstAfterDealer g
  | Phase.turn =>
    let g := { g with phase := Phase.river }
    if g.communityCards.length == 4 then
      match Deck.dealCards g.deck 1 with
      | Except.error _ => (some Err.insufficientCards, g)
      | Except.ok (cs, rest) =>
        pickFirstAfterDealer { g with communityCards := g.communityCards ++ cs, deck := rest }
    else pickFirstAfterDealer g
  | Phase.river =>
    let g := { g with phase := Phase.showdown }
    if decide (g.communityCards.length < 5) then
      match Deck.dealCards g.deck (5 - g.communityCards.length) with
      | Except.error _ => (some Err.insufficientCards, g)
      | Except.ok (cs, rest) =>
        pickFirstAfterDealer
          (determineWinner { g with communityCards := g.communityCards ++ cs, deck := rest })
    else pickFirstAfterDealer (determineWinner g)
  | Phase.showdown => pickFirstAfterDealer (resetGame js g)
  | _ => pickFirstAfterDealer g

/-- Embeds advanceToNextPhase: every bet is cleared first, along with
the table bet and the last raiser, and then the phase switch runs. -/
def advanceToNextPhase (js : Nat → Nat) (g : Game) : Option Err × Game :=
  advancePhaseCore js { g with
    players := g.players.map (fun (p : Player) => { p with bet := (0 : Int) })
    currentBet := 0
    lastRaisePlayerId := none }

/-- The switch statement of playerAction, applied to the acting seat i
(already checked to hold the turn).  Errors are the early returns of
the respective cases; on success the updated game is returned, with
all mutations through the player reference written back at index i. -/
def actionStep (g : Game) (i : Nat) (player : Player) : Action → Except Err Game
  | Action.fold =>
    Except.ok { g with players := g.players.set i { player with folded := true } }
  | Action.check =>
    if decide (player.bet < g.currentBet) then Except.error Err.mustCallOrRaise
    else Except.ok g
  | Action.call =>
    let callAmount := g.currentBet - player.bet
    if decide (player.chips < callAmount) then
      Except.ok { g with
        pot := g.pot + player.chips
        players := g.players.set i { player with bet := player.bet + player.chips, chips := 0 } }
    else
      Except.ok { g with
        pot := g.pot + callAmount
        players := g.players.set i
          { player with bet := g.currentBet, chips := player.chips - callAmount } }
  | Action.raise amount =>
    if decide (amount ≤ 0) then Except.error Err.invalidRaiseAmount
    else if decide (amount < g.currentBet * 2) then Except.error Err.belowMinimumRaise
    else if decide (player.chips < amount) then Except.error Err.insufficientChips
    else
      let raiseAmount := amount - player.bet
      Except.ok { g with
        pot := g.pot + raiseAmount
        currentBet := amount
        lastRaisePlayerId := some player.id
        players := g.players.set i
          { player with bet := amount, chips := player.chips - raiseAmount } }

/-- The round-closing test of playerAction: the next seat exists and
its id equals the non-null lastRaisePlayerId. -/
def lastRaiseMatches (g : Game) (next : Nat) : Bool :=
  match g.lastRaisePlayerId with
  | some x =>
    match g.players.get? next with
    | some p => p.id == x
    | none => false
  | none => false

/-- The tail of playerAction after the switch: find the next active
seat after the actor; close the round (advance the phase) if there is
none or the walk returned to the last raiser, otherwise pass the
turn. -/
def afterAction (js : Nat → Nat) (g : Game) (i : Nat) : Option Err × Game :=
  match findNextActivePlayer g.players i with
  | none => advanceToNextPhase js g
  | some next =>
    if lastRaiseMatches g next then advanceToNextPhase js g
    else (none, setTurn g next)

/-- Embeds the playerAction handler for a message from the connection
actorId routed to game g (the registry lookup by socket id is outside
this model).  The seat is located by its socket id; acting out of
turn (or from an unknown seat) is rejected without touching the
game. -/
def playerAction (js : Nat → Nat) (g : Game) (actorId : String) (a : Action) :
    Option Err × Game :=
  match g.players.findIdx? (fun p => p.id == actorId) with
  | none => (some Err.notYourTurn, g)
  | some i =>
    match g.players.get? i with
    | none => (some Err.notYourTurn, g)
    | some player =>
      if !player.isCurrentTurn then (some Err.notYourTurn, g)
      else
        match actionStep g i player a with
        | Except.error e => (some e, g)
        | Except.ok g1 => afterAction js g1 i

/-- The startGame forEach body for seat i: set dealer and turn flags,
deal two hole cards, and post the small or big blind when i is the
seat after (resp. two after) the dealer.  The flags are written
before dealing, so a dealCards exception still leaves them set; the
loop stops at the exception, returning the partial state. -/
def startLoop (g : Game) : List Nat → Option Err × Game
  | [] => (none, g)
  | i :: rest =>
    match g.players.get? i with
    | none => startLoop g rest
    | some p =>
      let p := { p with
        isDealer := i == g.dealerIndex
        isCurrentTurn := i == g.currentPlayerIndex }
      match Deck.dealCards g.deck 2 with
      | Except.error _ =>
        (some Err.insufficientCards, { g with players := g.players.set i p })
      | Except.ok (cs, rest2) =>
        let p := { p with cards := cs }
        let g := { g with deck := rest2 }
        let n := g.players.length
        let sb := i == (g.dealerIndex + 1) % n
        let p := if sb then { p with bet := g.smallBlind, chips := p.chips - g.smallBlind } else p
        let g := if sb then { g with pot := g.pot + g.smallBlind } else g
        let bb := i == (g.dealerIndex + 2) % n
        let p := if bb then { p with bet := g.bigBlind, chips := p.chips - g.bigBlind } else p
        let g :=
          if bb then
            { g with
              pot := g.pot + g.bigBlind
              currentBet := g.bigBlind
              lastRaisePlayerId := some p.id }
          else g
        startLoop { g with players := g.players.set i p } rest

/-- Embeds the startGame handler: at least two seats and a waiting
phase are required; then the deck is rebuilt and shuffled, the dealer
index pinned to 0, first-to-act set three seats after the dealer, each
seat dealt two cards and the blinds posted by the loop, and the phase
set to betting. -/
def startGame (js : Nat → Nat) (g : Game) : Option Err × Game :=
  if decide (g.players.length < 2) then (some Err.notEnoughPlayers, g)
  else if g.phase != Phase.waiting then (some Err.alreadyStarted, g)
  else
    let g := { g with
      deck := createDeck js
      phase := Phase.dealing
      dealerIndex := 0
      currentPlayerIndex := (0 + 3) % g.players.length }
    match startLoop g (List.range g.players.length) with
    | (some e, g2) => (some e, g2)
    | (none, g2) => (none, { g2 with phase := Phase.betting })

/-- Embeds the reconnectToGame handler for a game that was found: the
seat whose current id equals the stored playerId of the reconnecting
client is rebound to the new socket id and marked connected; nothing
else changes.  An unknown identity is rejected without touching the
game. -/
def reconnectToGame (g : Game) (playerId : String) (newSocketId : String) :
    Option Err × Game :=
  match g.players.findIdx? (fun p => p.id == playerId) with
  | none => (some Err.playerNotFound, g)
  | some i =>
    match g.players.get? i with
    | none => (some Err.playerNotFound, g)
    | some p =>
      (none, { g with players := g.players.set i { p with id := newSocketId, isConnected := true } })

/-- Sum of the chip stacks of a seat list. -/
def sumChips (ps : List Player) : Int :=
  (ps.map (fun p => p.chips)).sum

/-- Sum of the per-round bet fields of a seat list. -/
def sumBets (ps : List Player) : Int :=
  (ps.map (fun p => p.bet)).sum

/-- The conserved quantity of the engine: pot plus all stacks.  Bets
are not part of it because the source adds every wager to the pot at
action time and keeps bet only as bookkeeping. -/
def chipTotal (g : Game) : Int :=
  g.pot + sumChips g.players

/-- The quantity named by the specification: pot plus stacks plus
outstanding bets. -/
def specTotal (g : Game) : Int :=
  g.pot + sumChips g.players + sumBets g.players

end Server

namespace Server

/-- Phase reached by one call to advanceToNextPhase, following the
linear phase order of the specification; waiting and dealing fall
through the switch untouched, and an advance out of showdown resets
to waiting. -/
def nextPhaseOf : Phase → Phase
  | Phase.betting => Phase.flop
  | Phase.flop => Phase.turn
  | Phase.turn => Phase.river
  | Phase.river => Phase.showdown
  | Phase.showdown => Phase.waiting
  | p => p

end Server

namespace Ex

open Poker Server

/-- Trivial random source used by closed example evaluations: every
swap picks index 0. -/
def js0 : Nat → Nat := fun _ => 0

/-- A royal flush in spades. -/
def royalHand : List Card :=
  [Card.mk Rank.ten Suit.spades, Card.mk Rank.jack Suit.spades, Card.mk Rank.queen Suit.spades,
    Card.mk Rank.king Suit.spades, Card.mk Rank.ace Suit.spades]

/-- An ace-high no-pair hand of mixed suits (not a straight, not a
flush). -/
def aceHighHand : List Card :=
  [Card.mk Rank.ace Suit.hearts, Card.mk Rank.king Suit.diamonds, Card.mk Rank.queen Suit.clubs,
    Card.mk Rank.jack Suit.spades, Card.mk Rank.nine Suit.hearts]

/-- The wheel A-2-3-4-5 with mixed suits, as in the specification
example. -/
def wheelHand : List Card :=
  [Card.mk Rank.ace Suit.spades, Card.mk Rank.two Suit.spades, Card.mk Rank.three Suit.diamonds,
    Card.mk Rank.four Suit.hearts, Card.mk Rank.five Suit.clubs]

/-- The six-high straight 2-3-4-5-6 with mixed suits. -/
def sixHighHand : List Card :=
  [Card.mk Rank.two Suit.spades, Card.mk Rank.three Suit.spades, Card.mk Rank.four Suit.diamonds,
    Card.mk Rank.five Suit.hearts, Card.mk Rank.six Suit.clubs]

/-- A seven-high straight 3-4-5-6-7 with mixed suits. -/
def sevenHighHand : List Card :=
  [Card.mk Rank.three Suit.spades, Card.mk Rank.four Suit.hearts, Card.mk Rank.five Suit.diamonds,
    Card.mk Rank.six Suit.clubs, Card.mk Rank.seven Suit.spades]

/-- A connected, unfolded example seat. -/
def mkSeat (pid nm : String) (ch bt : Int) (turnFlag : Bool) (pos : Nat) : Player :=
  { id := pid, name := nm, chips := ch, cards := [], bet := bt, folded := false,
    isDealer := pos == 0, isCurrentTurn := turnFlag, isConnected := true, position := pos,
    isWinner := false, handDescription := none }

/-- A three-seat game mid preflop betting: seat a is to act with no
chips in yet, seats b and c have bet the table bet of 10, c was the
last raiser, the pot already holds 25. -/
def exGame : Game :=
  { id := "G1", players := [mkSeat "a" "Alice" 100 0 true 0, mkSeat "b" "Bob" 90 10 false 1,
      mkSeat "c" "Cara" 80 10 false 2],
    deck := [Card.mk Rank.two Suit.hearts, Card.mk Rank.three Suit.hearts,
      Card.mk Rank.four Suit.hearts, Card.mk Rank.five Suit.hearts,
      Card.mk Rank.six Suit.hearts],
    communityCards := [], pot := 25, currentBet := 10, phase := Phase.betting,
    currentPlayerIndex := 0, dealerIndex := 0, smallBlind := 5, bigBlind := 10,
    lastRaisePlayerId := some "c" }

/-- The example game after seat a folds: the switch of playerAction
marks the seat folded and changes nothing else. -/
def exAfterFold : Game :=
  { exGame with
    players := exGame.players.set 0 ({ mkSeat "a" "Alice" 100 0 true 0 with folded := true }) }

/-- A two-seat game still waiting to start, both stacks 1000. -/
def exWaiting : Game :=
  { id := "G2", players := [mkSeat "a" "Alice" 1000 0 false 0, mkSeat "b" "Bob" 1000 0 false 1],
    deck := [], communityCards := [], pot := 0, currentBet := 0, phase := Phase.waiting,
    currentPlayerIndex := 0, dealerIndex := 0, smallBlind := 5, bigBlind := 10,
    lastRaisePlayerId := none }

end Ex

namespace Poker

lemma count_set (l : List Card) (i : Nat) (x y c : Card) (h : l.get? i = some x) :
    (l.set i y).count c + (if x == c then 1 else 0) =
      l.count c + (if y == c then 1 else 0) := by
  induction l generalizing i with
  | nil => simp at h
  | cons a t ih =>
    cases i with
    | zero =>
      simp only [List.get?] at h
      cases h
      simp only [List.set_cons_zero, List.count_cons]
      omega
    | succ n =>
      simp only [List.get?] at h
      have := ih n h
      simp only [List.set_cons_succ, List.count_cons]
      omega

lemma swapAt_perm (l : List Card) (i j : Nat) : (swapAt l i j).Perm l := by
  unfold swapAt
  cases hi : l.get? i with
  | none => exact List.Perm.refl l
  | some a =>
    cases hj : l.get? j with
    | none => exact List.Perm.refl l
    | some b =>
      have hj2 : (l.set i b).get? j = some b := by
        by_cases hij : i = j
        · subst hij
          have hlen : i < l.length := (List.get?_eq_some.mp hi).1
          simp [List.get?_eq_getElem?, List.getElem?_set_self, hlen]
        · rw [List.get?_eq_getElem?, List.getElem?_set_ne hij, ← List.get?_eq_getElem?]
          exact hj
      show ((l.set i b).set j a).Perm l
      refine List.perm_iff_count.mpr (fun c => ?_)
      have h1 := count_set (l.set i b) j b a c hj2
      have h2 := count_set l i a b c hi
      exact Nat.add_right_cancel (h1.trans h2)

lemma shuffleLoop_perm (js : Nat → Nat) : ∀ (k : Nat) (l : List Card),
    (shuffleLoop js k l).Perm l := by
  intro k
  induction k with
  | zero => intro l; exact List.Perm.refl l
  | succ n ih =>
    intro l
    exact (ih (swapAt l (n + 1) (js (n + 1)))).trans (swapAt_perm l (n + 1) (js (n + 1)))

end Poker

namespace Poker

/-- C10: shuffleDeck returns a permutation of its input deck: same
length and the same multiset of cards (identical per-card counts),
for every input deck and every sequence of swap choices produced by
the random source; the input list itself is untouched (the embedding
is a pure function, as the source copies the array before
swapping). -/
theorem shuffleDeck_is_permutation (js : Nat → Nat) (deck : List Card) :
    (shuffleDeck js deck).Perm deck ∧
    (shuffleDeck js deck).length = deck.length ∧
    ∀ c : Card, (shuffleDeck js deck).count c = deck.count c := by
  have h : (shuffleDeck js deck).Perm deck := shuffleLoop_perm js (deck.length - 1) deck
  exact ⟨h, h.length_eq, fun c => h.count_eq c⟩

end Poker

namespace Deck

open Poker

/-- C4: dealCards deck n fails with InsufficientCards when n exceeds
the deck size; otherwise it returns exactly the first n cards (in
order) and the remaining deck.length - n cards in their original
relative order, the two parts reassembling to the untouched input
deck. -/
theorem dealCards_spec (deck : List Card) (n : Nat) :
    (deck.length < n → dealCards deck n = Except.error DeckErr.insufficientCards) ∧
    (n ≤ deck.length →
      dealCards deck n = Except.ok (deck.take n, deck.drop n) ∧
      (deck.take n).length = n ∧
      (deck.drop n).length = deck.length - n ∧
      deck.take n ++ deck.drop n = deck) := by
  constructor
  · intro h
    simp [dealCards, h]
  · intro h
    refine ⟨?_, ?_, ?_, ?_⟩
    · simp [dealCards, Nat.not_lt.mpr h]
    · simp [List.length_take]
      omega
    · simp [List.length_drop]
    · exact List.take_append_drop n deck

/-- Closed instance of dealCards_spec: dealing 3 from a 2-card deck
fails, and dealing 1 from it returns the first card and leaves the
second. -/
theorem dealCards_spec_witness :
    dealCards [Card.mk Rank.ace Suit.spades, Card.mk Rank.two Suit.hearts] 3 =
      Except.error DeckErr.insufficientCards ∧
    dealCards [Card.mk Rank.ace Suit.spades, Card.mk Rank.two Suit.hearts] 1 =
      Except.ok ([Card.mk Rank.ace Suit.spades], [Card.mk Rank.two Suit.hearts]) := by
  constructor
  · exact (dealCards_spec [Card.mk Rank.ace Suit.spades, Card.mk Rank.two Suit.hearts] 3).1
      (by decide)
  · exact ((dealCards_spec [Card.mk Rank.ace Suit.spades, Card.mk Rank.two Suit.hearts] 1).2
      (by decide)).1

end Deck

/-- C3 counterexample: on fewer than 5 cards the server-side
evaluator does not fail at all: it returns the ordinary HandResult
record with rank Invalid Hand and value 0, here evaluated on a
concrete 2-card input. -/
theorem serverEvaluateHand_returns_on_short_input :
    Server.evaluateHand [Poker.Card.mk Poker.Rank.ace Poker.Suit.spades,
        Poker.Card.mk Poker.Rank.king Poker.Suit.hearts] =
      { rank := "Invalid Hand", value := 0, description := "Not enough cards" } := by
  rfl

/-- C3 amended: on every input of fewer than 5 cards the client
evaluator (deck.ts) throws the invalid-hand-size error, while the
server evaluator instead returns the sentinel record
rank Invalid Hand / value 0 / Not enough cards without failing. -/
theorem evaluateHand_short_input (cards : List Poker.Card) (h : cards.length < 5) :
    Deck.evaluateHand cards = Except.error Deck.DeckErr.invalidHandSize ∧
    Server.evaluateHand cards =
      { rank := "Invalid Hand", value := 0, description := "Not enough cards" } := by
  constructor
  · simp [Deck.evaluateHand, h]
  · simp [Server.evaluateHand, h]

/-- Closed instance of evaluateHand_short_input on a 1-card input. -/
theorem evaluateHand_short_input_witness :
    Deck.evaluateHand [Poker.Card.mk Poker.Rank.two Poker.Suit.clubs] =
      Except.error Deck.DeckErr.invalidHandSize ∧
    Server.evaluateHand [Poker.Card.mk Poker.Rank.two Poker.Suit.clubs] =
      { rank := "Invalid Hand", value := 0, description := "Not enough cards" } :=
  evaluateHand_short_input [Poker.Card.mk Poker.Rank.two Poker.Suit.clubs] (by decide)

/-- C2: the comparable value does not place every higher category
above every lower one: the Flush and High Card branches weight their
kickers by 100^4 .. 100^0, so their tie-break terms reach far beyond
10^6.  Concretely the ace-high no-pair hand gets value 1413121109
while a royal flush gets 9000000, so a single integer comparison
ranks the High Card hand (category 0) above the Royal Flush
(category 9). -/
theorem comparableValue_category_order_violated :
    (Poker.evaluateFiveCardHand Ex.aceHighHand).rank = "High Card" ∧
    (Poker.evaluateFiveCardHand Ex.royalHand).rank = "Royal Flush" ∧
    (Poker.evaluateFiveCardHand Ex.royalHand).value = 9 * 1000000 ∧
    (Poker.evaluateFiveCardHand Ex.aceHighHand).value = 1413121109 ∧
    (Poker.evaluateFiveCardHand Ex.royalHand).value <
      (Poker.evaluateFiveCardHand Ex.aceHighHand).value := by
  refine ⟨by decide, by decide, by decide, by decide, by decide⟩

namespace Server

/-- C5: a betting action sent by a seat that does not hold the turn
(isCurrentTurn false) is rejected with the not-your-turn error and the
game value is returned unchanged: every seat, the pot, the current
bet, the deck, the community cards and the phase are exactly those of
the input state. -/
theorem playerAction_rejects_out_of_turn (js : Nat → Nat) (g : Game) (pid : String)
    (a : Action) (i : Nat) (p : Player)
    (hf : g.players.findIdx? (fun q => q.id == pid) = some i)
    (hg : g.players.get? i = some p)
    (ht : p.isCurrentTurn = false) :
    playerAction js g pid a = (some Err.notYourTurn, g) := by
  have hg2 : g.players[i]? = some p := by rw [← List.get?_eq_getElem?]; exact hg
  simp [playerAction, hf, hg2, ht]

/-- Closed instance of playerAction_rejects_out_of_turn: seat b of the
example game does not hold the turn, so its fold is rejected and the
state is untouched. -/
theorem playerAction_rejects_out_of_turn_witness :
    playerAction Ex.js0 Ex.exGame "b" Action.fold = (some Err.notYourTurn, Ex.exGame) :=
  playerAction_rejects_out_of_turn Ex.js0 Ex.exGame "b" Action.fold 1
    (Ex.mkSeat "b" "Bob" 90 10 false 1) (by decide) (by decide) (by decide)

/-- C6: in a betting-phase game, a raise by the seat holding the turn
with an amount strictly between 0 and twice the table bet fails with
the below-minimum-raise error and the state is returned unchanged. -/
theorem raise_below_minimum_rejected (js : Nat → Nat) (g : Game) (pid : String)
    (amt : Int) (i : Nat) (p : Player)
    (hf : g.players.findIdx? (fun q => q.id == pid) = some i)
    (hg : g.players.get? i = some p)
    (ht : p.isCurrentTurn = true)
    (hph : g.phase = Phase.betting)
    (h1 : 0 < amt) (h2 : amt < g.currentBet * 2) :
    playerAction js g pid (Action.raise amt) = (some Err.belowMinimumRaise, g) := by
  have hg2 : g.players[i]? = some p := by rw [← List.get?_eq_getElem?]; exact hg
  have h3 : ¬ amt ≤ 0 := not_le.mpr h1
  simp [playerAction, actionStep, hf, hg2, ht, h2, h3]

/-- Closed instance of raise_below_minimum_rejected: with the table
bet at 10, a raise to 15 by the acting seat is rejected, state
untouched. -/
theorem raise_below_minimum_rejected_witness :
    playerAction Ex.js0 Ex.exGame "a" (Action.raise 15) =
      (some Err.belowMinimumRaise, Ex.exGame) :=
  raise_below_minimum_rejected Ex.js0 Ex.exGame "a" 15 0
    (Ex.mkSeat "a" "Alice" 100 0 true 0) (by decide) (by decide) (by decide) (by decide)
    (by decide) (by decide)

/-- C9: when a seat with the reconnecting identity exists,
reconnectToGame succeeds, rebinds that seat to the new connection id
and marks it connected, and changes nothing else: the seat keeps its
chips, hole cards, bet, folded flag and turn flag, every other seat is
untouched, and the pot, deck, community cards and phase of the game
are unchanged. -/
theorem reconnect_rebinds_and_preserves (g : Game) (pid nid : String) (i : Nat) (p : Player)
    (hf : g.players.findIdx? (fun q => q.id == pid) = some i)
    (hg : g.players.get? i = some p) :
    reconnectToGame g pid nid =
      (none, { g with players := g.players.set i { p with id := nid, isConnected := true } }) ∧
    (reconnectToGame g pid nid).2.players.get? i =
      some { p with id := nid, isConnected := true } ∧
    (∀ q : Player, (reconnectToGame g pid nid).2.players.get? i = some q →
      q.chips = p.chips ∧ q.cards = p.cards ∧ q.bet = p.bet ∧ q.folded = p.folded ∧
      q.isCurrentTurn = p.isCurrentTurn ∧ q.id = nid ∧ q.isConnected = true) ∧
    (∀ j : Nat, j ≠ i → (reconnectToGame g pid nid).2.players.get? j = g.players.get? j) ∧
    (reconnectToGame g pid nid).2.pot = g.pot ∧
    (reconnectToGame g pid nid).2.deck = g.deck ∧
    (reconnectToGame g pid nid).2.communityCards = g.communityCards ∧
    (reconnectToGame g pid nid).2.phase = g.phase := by
  have hg2 : g.players[i]? = some p := by rw [← List.get?_eq_getElem?]; exact hg
  have h0 : reconnectToGame g pid nid =
      (none, { g with players := g.players.set i { p with id := nid, isConnected := true } }) := by
    simp [reconnectToGame, hf, hg2]
  have hlen : i < g.players.length := (List.get?_eq_some.mp hg).1
  have hgetset : (g.players.set i { p with id := nid, isConnected := true }).get? i =
      some { p with id := nid, isConnected := true } := by
    simp [List.get?_eq_getElem?, List.getElem?_set_self, hlen]
  refine ⟨h0, ?_, ?_, ?_, ?_, ?_, ?_, ?_⟩
  · rw [h0]; exact hgetset
  · intro q hq
    rw [h0] at hq
    rw [hgetset] at hq
    cases hq
    exact ⟨rfl, rfl, rfl, rfl, rfl, rfl, rfl⟩
  · intro j hj
    rw [h0]
    simp only
    rw [List.get?_eq_getElem?, List.getElem?_set_ne (fun h => hj h.symm), ← List.get?_eq_getElem?]
  · rw [h0]
  · rw [h0]
  · rw [h0]
  · rw [h0]

/-- Closed instance of reconnect_rebinds_and_preserves: seat b of the
example game reconnects under the new socket id z9, keeping its stack
of 90 and its bet of 10. -/
theorem reconnect_rebinds_and_preserves_witness :
    (reconnectToGame Ex.exGame "b" "z9").2.players.get? 1 =
      some { Ex.mkSeat "b" "Bob" 90 10 false 1 with id := "z9", isConnected := true } ∧
    (reconnectToGame Ex.exGame "b" "z9").2.pot = Ex.exGame.pot :=
  ⟨(reconnect_rebinds_and_preserves Ex.exGame "b" "z9" 1 (Ex.mkSeat "b" "Bob" 90 10 false 1)
      (by decide) (by decide)).2.1,
   (reconnect_rebinds_and_preserves Ex.exGame "b" "z9" 1 (Ex.mkSeat "b" "Bob" 90 10 false 1)
      (by decide) (by decide)).2.2.2.2.1⟩

end Server

namespace Server

lemma sumChips_nil : sumChips [] = 0 := rfl

lemma sumChips_cons (p : Player) (ps : List Player) :
    sumChips (p :: ps) = p.chips + sumChips ps := by
  simp [sumChips]

lemma sumChips_set (ps : List Player) (i : Nat) (q p : Player)
    (h : ps.get? i = some p) :
    sumChips (ps.set i q) = sumChips ps - p.chips + q.chips := by
  induction ps generalizing i with
  | nil => simp at h
  | cons a t ih =>
    cases i with
    | zero =>
      simp only [List.get?] at h
      cases h
      simp only [List.set_cons_zero, sumChips_cons]
      ring
    | succ n =>
      simp only [List.get?] at h
      have := ih n h
      simp only [List.set_cons_succ, sumChips_cons, this]
      ring

lemma sumChips_map_chips_eq (f : Player → Player) (hf : ∀ p, (f p).chips = p.chips) :
    ∀ ps : List Player, sumChips (ps.map f) = sumChips ps := by
  intro ps
  induction ps with
  | nil => rfl
  | cons a t ih => simp [sumChips_cons, hf, ih]

lemma sumChips_setTurnFlags (j : Nat) : ∀ (idx : Nat) (ps : List Player),
    sumChips (setTurnFlags j idx ps) = sumChips ps := by
  intro idx ps
  induction ps generalizing idx with
  | nil => rfl
  | cons a t ih => simp [setTurnFlags, sumChips_cons, ih]

lemma chipTotal_setTurn (g : Game) (j : Nat) : chipTotal (setTurn g j) = chipTotal g := by
  simp [chipTotal, setTurn, sumChips_setTurnFlags]

lemma chipTotal_pickFirstAfterDealer (g : Game) :
    chipTotal (pickFirstAfterDealer g).2 = chipTotal g := by
  unfold pickFirstAfterDealer
  split
  · cases h : findNextActivePlayer g.players g.dealerIndex with
    | none => rfl
    | some j => simp [h, chipTotal_setTurn]
  · rfl

lemma chipTotal_awardPot (g : Game) (ps : List Player) (w : Nat)
    (desc : Player → Option String)
    (hm : sumChips ps = sumChips g.players) :
    chipTotal (awardPot g ps w desc) = chipTotal g := by
  unfold awardPot
  cases hq : ps.get? w with
  | none => simp [chipTotal, hm]
  | some q =>
    simp only [chipTotal]
    rw [sumChips_set _ _ _ _ hq]
    simp [hm]
    ring

lemma chipTotal_determineWinner (g : Game) :
    chipTotal (determineWinner g) = chipTotal g := by
  simp only [determineWinner]
  have hm : sumChips (g.players.map
      (fun p => { p with isWinner := false, handDescription := none })) =
      sumChips g.players :=
    sumChips_map_chips_eq
      (fun p => { p with isWinner := false, handDescription := none })
      (fun p => rfl) g.players
  cases hact : (indexedPlayers 0 (g.players.map
      (fun p => { p with isWinner := false, handDescription := none }))).filter
      (fun pr => !pr.2.folded) with
  | nil => simp [chipTotal, hm]
  | cons hd tl =>
    cases tl with
    | nil =>
      obtain ⟨i0, p0⟩ := hd
      exact chipTotal_awardPot g _ i0 _ hm
    | cons hd2 tl2 =>
      exact chipTotal_awardPot g _ _ _ hm


lemma chipTotal_advCore (js : Nat → Nat) (g : Game) (h : g.phase ≠ Phase.showdown) :
    chipTotal (advancePhaseCore js g).2 = chipTotal g := by
  unfold advancePhaseCore
  cases hph : g.phase with
  | betting =>
    simp only
    split
    · cases Deck.dealCards g.deck 3 with
      | error e => simp [chipTotal]
      | ok pr =>
        obtain ⟨cs, rest⟩ := pr
        rw [chipTotal_pickFirstAfterDealer]
        simp [chipTotal]
    · rw [chipTotal_pickFirstAfterDealer]
      simp [chipTotal]
  | flop =>
    simp only
    split
    · cases Deck.dealCards g.deck 1 with
      | error e => simp [chipTotal]
      | ok pr =>
        obtain ⟨cs, rest⟩ := pr
        rw [chipTotal_pickFirstAfterDealer]
        simp [chipTotal]
    · rw [chipTotal_pickFirstAfterDealer]
      simp [chipTotal]
  | turn =>
    simp only
    split
    · cases Deck.dealCards g.deck 1 with
      | error e => simp [chipTotal]
      | ok pr =>
        obtain ⟨cs, rest⟩ := pr
        rw [chipTotal_pickFirstAfterDealer]
        simp [chipTotal]
    · rw [chipTotal_pickFirstAfterDealer]
      simp [chipTotal]
  | river =>
    simp only
    split
    · cases Deck.dealCards g.deck (5 - g.communityCards.length) with
      | error e => simp [chipTotal]
      | ok pr =>
        obtain ⟨cs, rest⟩ := pr
        rw [chipTotal_pickFirstAfterDealer, chipTotal_determineWinner]
        simp [chipTotal]
    · rw [chipTotal_pickFirstAfterDealer, chipTotal_determineWinner]
      simp [chipTotal]
  | showdown => exact absurd hph h
  | waiting => exact chipTotal_pickFirstAfterDealer g
  | dealing => exact chipTotal_pickFirstAfterDealer g

lemma chipTotal_advance (js : Nat → Nat) (g : Game) (h : g.phase ≠ Phase.showdown) :
    chipTotal (advanceToNextPhase js g).2 = chipTotal g := by
  unfold advanceToNextPhase
  rw [chipTotal_advCore]
  · simp only [chipTotal]
    rw [sumChips_map_chips_eq (fun (p : Player) => { p with bet := (0 : Int) }) (fun p => rfl)]
  · simpa using h

lemma actionStep_chipTotal (g : Game) (i : Nat) (p : Player) (a : Action) (g1 : Game)
    (hg : g.players.get? i = some p)
    (h : actionStep g i p a = Except.ok g1) :
    chipTotal g1 = chipTotal g := by
  cases a with
  | fold =>
    simp only [actionStep] at h
    cases h
    simp only [chipTotal]
    rw [sumChips_set _ _ _ _ hg]
    ring
  | check =>
    simp only [actionStep] at h
    split at h
    · cases h
    · cases h
      rfl
  | call =>
    simp only [actionStep] at h
    split at h <;> cases h <;>
      · simp only [chipTotal]
        rw [sumChips_set _ _ _ _ hg]
        ring
  | raise amount =>
    simp only [actionStep] at h
    split at h
    · cases h
    · split at h
      · cases h
      · split at h
        · cases h
        · cases h
          simp only [chipTotal]
          rw [sumChips_set _ _ _ _ hg]
          ring

lemma actionStep_phase (g : Game) (i : Nat) (p : Player) (a : Action) (g1 : Game)
    (h : actionStep g i p a = Except.ok g1) :
    g1.phase = g.phase := by
  cases a with
  | fold =>
    simp only [actionStep] at h
    cases h
    rfl
  | check =>
    simp only [actionStep] at h
    split at h
    · cases h
    · cases h
      rfl
  | call =>
    simp only [actionStep] at h
    split at h <;> cases h <;> rfl
  | raise amount =>
    simp only [actionStep] at h
    split at h
    · cases h
    · split at h
      · cases h
      · split at h
        · cases h
        · cases h
          rfl

lemma startLoop_chipTotal (l : List Nat) : ∀ g : Game,
    chipTotal (startLoop g l).2 = chipTotal g := by
  induction l with
  | nil => intro g; rfl
  | cons i rest ih =>
    intro g
    simp only [startLoop]
    cases hq : g.players.get? i with
    | none => exact ih g
    | some p =>
      cases hd : Deck.dealCards g.deck 2 with
      | error e =>
        simp only [chipTotal]
        rw [sumChips_set _ _ _ _ hq]
        ring
      | ok pr =>
        obtain ⟨cs, rest2⟩ := pr
        by_cases hsb : (i == (g.dealerIndex + 1) % g.players.length) = true <;>
          by_cases hbb : (i == (g.dealerIndex + 2) % g.players.length) = true <;>
          simp only [hsb, hbb, if_true, if_false, Bool.false_eq_true, ite_true, ite_false,
            Bool.not_eq_true] <;>
          · rw [ih]
            simp only [chipTotal]
            rw [sumChips_set _ _ _ _ hq]
            simp only
            ring

/-- C1 counterexample: in the example betting-phase game, the call by
the acting seat a is accepted (no error, the turn passes on), yet the
specification quantity pot + stacks + bets grows from 315 to 325: the
10 called chips leave the stack but are added both to the pot and to
the bet field. -/
theorem specTotal_not_conserved_by_call :
    (playerAction Ex.js0 Ex.exGame "a" Action.call).1 = none ∧
    specTotal Ex.exGame = 315 ∧
    specTotal (playerAction Ex.js0 Ex.exGame "a" Action.call).2 = 325 ∧
    specTotal (playerAction Ex.js0 Ex.exGame "a" Action.call).2 ≠ specTotal Ex.exGame := by
  refine ⟨by decide, by decide, by decide, by decide⟩

lemma afterAction_chipTotal (js : Nat → Nat) (g1 : Game) (i : Nat)
    (h : g1.phase ≠ Phase.showdown) :
    chipTotal (afterAction js g1 i).2 = chipTotal g1 := by
  unfold afterAction
  cases hn : findNextActivePlayer g1.players i with
  | none => exact chipTotal_advance js g1 h
  | some nxt =>
    cases hlr : lastRaiseMatches g1 nxt with
    | true =>
      simp only [hlr, if_true, ite_true]
      exact chipTotal_advance js g1 h
    | false =>
      simp only [hlr, Bool.false_eq_true, if_false, ite_false]
      exact chipTotal_setTurn g1 nxt

/-- C1 amended: the conserved quantity is pot + the sum of the chip
stacks (the bet fields are bookkeeping already counted inside the
pot).  Every playerAction transition from a state whose phase is not
showdown preserves it - accepted or rejected, fold, check, call or
raise, including any phase advance and settlement the action triggers
(from showdown, a closing action reaches resetGame, which discards a
leftover pot).  Posting the blinds at hand start (startGame) also
preserves it, unconditionally. -/
theorem chipTotal_conserved :
    (∀ (js : Nat → Nat) (g : Game) (pid : String) (a : Action),
      g.phase ≠ Phase.showdown →
      chipTotal (playerAction js g pid a).2 = chipTotal g) ∧
    (∀ (js : Nat → Nat) (g : Game),
      chipTotal (startGame js g).2 = chipTotal g) := by
  constructor
  · intro js g pid a hph
    unfold playerAction
    split
    · rfl
    · split
      · rfl
      · split
        · rfl
        · split
          · rfl
          · rename_i x0 idx hf0 optp p hq hcond hexc g1 hstep
            have hc := actionStep_chipTotal g idx p a g1 hq hstep
            have hp := actionStep_phase g idx p a g1 hstep
            have hph1 : g1.phase ≠ Phase.showdown := by rw [hp]; exact hph
            rw [afterAction_chipTotal js g1 idx hph1, hc]
  · intro js g
    unfold startGame
    split
    · rfl
    · split
      · rfl
      · simp only
        cases hs : startLoop { g with
            deck := Poker.createDeck js
            phase := Phase.dealing
            dealerIndex := 0
            currentPlayerIndex := (0 + 3) % g.players.length } (List.range g.players.length) with
        | mk e g2 =>
          have := startLoop_chipTotal (List.range g.players.length) { g with
            deck := Poker.createDeck js
            phase := Phase.dealing
            dealerIndex := 0
            currentPlayerIndex := (0 + 3) % g.players.length }
          rw [hs] at this
          have hG0 : chipTotal { g with
              deck := Poker.createDeck js
              phase := Phase.dealing
              dealerIndex := 0
              currentPlayerIndex := (0 + 3) % g.players.length } = chipTotal g := by
            simp [chipTotal]
          simp only at this
          cases e with
          | none =>
            simp only [chipTotal, List.map_cons]
            simp only [chipTotal] at this hG0
            omega
          | some e2 =>
            simp only [chipTotal]
            simp only [chipTotal] at this hG0
            omega

/-- Closed instance of chipTotal_conserved: the example call keeps
pot + stacks at 295, and starting the two-seat waiting game keeps
pot + stacks at 2000. -/
theorem chipTotal_conserved_witness :
    chipTotal (playerAction Ex.js0 Ex.exGame "a" Action.call).2 = chipTotal Ex.exGame ∧
    chipTotal (startGame Ex.js0 Ex.exWaiting).2 = chipTotal Ex.exWaiting :=
  ⟨chipTotal_conserved.1 Ex.js0 Ex.exGame "a" Action.call (by decide),
   chipTotal_conserved.2 Ex.js0 Ex.exWaiting⟩

lemma cyc_ne (curr k n : Nat) (h1 : 1 ≤ k) (h2 : k < n) (hc : curr < n) :
    (curr + k) % n ≠ curr := by
  rcases Nat.lt_or_ge (curr + k) n with h | h
  · rw [Nat.mod_eq_of_lt h]
    omega
  · have hlt : curr + k - n < n := by omega
    rw [Nat.mod_eq_sub_mod h, Nat.mod_eq_of_lt hlt]
    omega

lemma findNextGo_eq_scan (ps : List Player) (curr : Nat) (hc : curr < ps.length) :
    ∀ (d k : Nat), k + d = ps.length → 1 ≤ k →
    findNextGo ps curr ((curr + k) % ps.length) (d + 1) =
      ((List.range' k d).map (fun m => (curr + m) % ps.length)).find? (activeAt ps) := by
  intro d
  induction d with
  | zero =>
    intro k hk h1
    have hk2 : k = ps.length := by omega
    subst hk2
    have hcc : (curr + ps.length) % ps.length = curr := by
      rw [Nat.add_mod_right]
      exact Nat.mod_eq_of_lt hc
    rw [hcc]
    simp [findNextGo]
  | succ d2 ih =>
    intro k hk h1
    have hne : ((curr + k) % ps.length == curr) = false := by
      simp [cyc_ne curr k ps.length h1 (by omega) hc]
    have hstep : ((curr + k) % ps.length + 1) % ps.length = (curr + (k + 1)) % ps.length := by
      rw [Nat.mod_add_mod, Nat.add_assoc]
    rw [findNextGo, hne]
    simp only [Bool.false_eq_true, if_false, ite_false]
    rw [hstep, ih (k + 1) (by omega) (by omega), List.range'_succ, List.map_cons]
    cases ha : activeAt ps ((curr + k) % ps.length) with
    | true => simp [List.find?, ha]
    | false => simp [List.find?, ha]

lemma findNextActivePlayer_eq_scan (ps : List Player) (curr : Nat) (hc : curr < ps.length) :
    findNextActivePlayer ps curr =
      ((List.range' 1 (ps.length - 1)).map (fun m => (curr + m) % ps.length)).find?
        (activeAt ps) := by
  unfold findNextActivePlayer
  have h := findNextGo_eq_scan ps curr hc (ps.length - 1) 1 (by omega) (by omega)
  rw [show ps.length - 1 + 1 = ps.length from by omega] at h
  exact h

lemma setTurn_phase (g : Game) (j : Nat) : (setTurn g j).phase = g.phase := rfl

lemma pickFirstAfterDealer_phase (g : Game) :
    (pickFirstAfterDealer g).2.phase = g.phase := by
  unfold pickFirstAfterDealer
  split
  · cases h : findNextActivePlayer g.players g.dealerIndex with
    | none => rfl
    | some j => simp [h, setTurn_phase]
  · rfl

lemma awardPot_phase (g : Game) (ps : List Player) (w : Nat) (desc : Player → Option String) :
    (awardPot g ps w desc).phase = g.phase := by
  unfold awardPot
  cases ps.get? w <;> rfl

lemma determineWinner_phase (g : Game) : (determineWinner g).phase = g.phase := by
  simp only [determineWinner]
  cases (indexedPlayers 0 (g.players.map
      (fun p => { p with isWinner := false, handDescription := none }))).filter
      (fun pr => !pr.2.folded) with
  | nil => rfl
  | cons hd tl =>
    cases tl with
    | nil =>
      obtain ⟨i0, p0⟩ := hd
      exact awardPot_phase g _ i0 _
    | cons hd2 tl2 => exact awardPot_phase g _ _ _

lemma advCore_phase (js : Nat → Nat) (g : Game) :
    (advancePhaseCore js g).2.phase = nextPhaseOf g.phase := by
  unfold advancePhaseCore
  cases hph : g.phase with
  | betting =>
    simp only
    split
    · cases Deck.dealCards g.deck 3 with
      | error e => rfl
      | ok pr =>
        obtain ⟨cs, rest⟩ := pr
        rw [pickFirstAfterDealer_phase]
        rfl
    · rw [pickFirstAfterDealer_phase]
      rfl
  | flop =>
    simp only
    split
    · cases Deck.dealCards g.deck 1 with
      | error e => rfl
      | ok pr =>
        obtain ⟨cs, rest⟩ := pr
        rw [pickFirstAfterDealer_phase]
        rfl
    · rw [pickFirstAfterDealer_phase]
      rfl
  | turn =>
    simp only
    split
    · cases Deck.dealCards g.deck 1 with
      | error e => rfl
      | ok pr =>
        obtain ⟨cs, rest⟩ := pr
        rw [pickFirstAfterDealer_phase]
        rfl
    · rw [pickFirstAfterDealer_phase]
      rfl
  | river =>
    simp only
    split
    · cases Deck.dealCards g.deck (5 - g.communityCards.length) with
      | error e => rfl
      | ok pr =>
        obtain ⟨cs, rest⟩ := pr
        rw [pickFirstAfterDealer_phase, determineWinner_phase]
        rfl
    · rw [pickFirstAfterDealer_phase, determineWinner_phase]
      rfl
  | showdown =>
    rw [pickFirstAfterDealer_phase]
    rfl
  | waiting =>
    rw [pickFirstAfterDealer_phase, hph]
    rfl
  | dealing =>
    rw [pickFirstAfterDealer_phase, hph]
    rfl

lemma advance_phase (js : Nat → Nat) (g : Game) :
    (advanceToNextPhase js g).2.phase = nextPhaseOf g.phase := by
  unfold advanceToNextPhase
  rw [advCore_phase]

lemma lastRaiseMatches_iff (g1 : Game) (j : Nat) :
    lastRaiseMatches g1 j = true ↔
      ∃ q : Player, g1.players.get? j = some q ∧ g1.lastRaisePlayerId = some q.id := by
  unfold lastRaiseMatches
  cases hl : g1.lastRaisePlayerId with
  | none =>
    simp only [Bool.false_eq_true, false_iff]
    rintro ⟨q, hq, hcontra⟩
    cases hcontra
  | some x =>
    cases hq : g1.players.get? j with
    | none =>
      simp only [Bool.false_eq_true, false_iff]
      rintro ⟨q, hq2, hid⟩
      cases hq2
    | some q2 =>
      simp only [beq_iff_eq]
      constructor
      · intro hx
        exact ⟨q2, rfl, by rw [hx]⟩
      · rintro ⟨q, hq2, hid⟩
        cases hq2
        cases hid
        rfl

lemma playerAction_validated (js : Nat → Nat) (g : Game) (pid : String) (a : Action)
    (i : Nat) (p : Player) (g1 : Game)
    (hf : g.players.findIdx? (fun q => q.id == pid) = some i)
    (hq : g.players.get? i = some p)
    (ht : p.isCurrentTurn = true)
    (hstep : actionStep g i p a = Except.ok g1) :
    playerAction js g pid a = afterAction js g1 i := by
  unfold playerAction
  rw [hf]
  simp only [hq, ht, hstep, Bool.not_true, Bool.false_eq_true, if_false, ite_false]

lemma afterAction_none (js : Nat → Nat) (g1 : Game) (i : Nat)
    (hn : findNextActivePlayer g1.players i = none) :
    afterAction js g1 i = advanceToNextPhase js g1 := by
  unfold afterAction
  rw [hn]

lemma afterAction_close (js : Nat → Nat) (g1 : Game) (i j : Nat)
    (hn : findNextActivePlayer g1.players i = some j)
    (hm : lastRaiseMatches g1 j = true) :
    afterAction js g1 i = advanceToNextPhase js g1 := by
  unfold afterAction
  rw [hn]
  simp [hm]

lemma afterAction_pass (js : Nat → Nat) (g1 : Game) (i j : Nat)
    (hn : findNextActivePlayer g1.players i = some j)
    (hm : lastRaiseMatches g1 j = false) :
    afterAction js g1 i = (none, setTurn g1 j) := by
  unfold afterAction
  rw [hn]
  simp [hm]

lemma get?_setTurnFlags (j : Nat) : ∀ (idx m : Nat) (ps : List Player),
    (setTurnFlags j idx ps).get? m =
      (ps.get? m).map (fun p => { p with isCurrentTurn := (idx + m) == j }) := by
  intro idx m ps
  induction ps generalizing idx m with
  | nil => simp [setTurnFlags]
  | cons a t ih =>
    cases m with
    | zero => simp [setTurnFlags, List.get?]
    | succ m2 =>
      simp only [setTurnFlags, List.get?]
      rw [ih (idx + 1) m2]
      have : idx + 1 + m2 = idx + (m2 + 1) := by omega
      rw [this]

lemma actionStep_players_length (g : Game) (i : Nat) (p : Player) (a : Action) (g1 : Game)
    (h : actionStep g i p a = Except.ok g1) :
    g1.players.length = g.players.length := by
  cases a with
  | fold =>
    simp only [actionStep] at h
    cases h
    simp
  | check =>
    simp only [actionStep] at h
    split at h
    · cases h
    · cases h
      rfl
  | call =>
    simp only [actionStep] at h
    split at h <;> cases h <;> simp
  | raise amount =>
    simp only [actionStep] at h
    split at h
    · cases h
    · split at h
      · cases h
      · split at h
        · cases h
        · cases h
          simp

/-- C7: after a validated betting action by the seat at index i (seat
found, holding the turn, switch accepted with result g1), the
follow-up is exactly as specified: (1) the next-seat search equals the
first seat, scanning indices (i+1), (i+2), ... cyclically once around,
that is not folded, has chips and is connected; (2) if such a seat j
exists and its identity is not the last aggressor, the action returns
no error and hands the turn to exactly seat j, leaving the phase
untouched; (3) if the found seat is the last aggressor, or (4) no
eligible seat exists, the betting round closes instead via a single
advanceToNextPhase; and (5) that single advance moves the phase
exactly one step along the phase order. -/
theorem turn_advance_spec :
    ∀ (js : Nat → Nat) (g : Game) (pid : String) (a : Action) (i : Nat) (p : Player) (g1 : Game),
    g.players.findIdx? (fun q => q.id == pid) = some i →
    g.players.get? i = some p →
    p.isCurrentTurn = true →
    actionStep g i p a = Except.ok g1 →
    (findNextActivePlayer g1.players i =
      ((List.range' 1 (g1.players.length - 1)).map (fun m => (i + m) % g1.players.length)).find?
        (activeAt g1.players)) ∧
    (∀ j : Nat, findNextActivePlayer g1.players i = some j →
      ¬(∃ q : Player, g1.players.get? j = some q ∧ g1.lastRaisePlayerId = some q.id) →
      playerAction js g pid a = (none, setTurn g1 j) ∧
      (setTurn g1 j).phase = g1.phase ∧
      (setTurn g1 j).currentPlayerIndex = j ∧
      (∀ (m : Nat) (q : Player), (setTurn g1 j).players.get? m = some q →
        q.isCurrentTurn = (m == j))) ∧
    (∀ j : Nat, findNextActivePlayer g1.players i = some j →
      (∃ q : Player, g1.players.get? j = some q ∧ g1.lastRaisePlayerId = some q.id) →
      playerAction js g pid a = advanceToNextPhase js g1) ∧
    (findNextActivePlayer g1.players i = none →
      playerAction js g pid a = advanceToNextPhase js g1) ∧
    (advanceToNextPhase js g1).2.phase = nextPhaseOf g1.phase := by
  intro js g pid a i p g1 hf hq ht hstep
  have hi : i < g.players.length := (List.get?_eq_some.mp hq).1
  have hlen := actionStep_players_length g i p a g1 hstep
  have hi1 : i < g1.players.length := by rw [hlen]; exact hi
  refine ⟨findNextActivePlayer_eq_scan g1.players i hi1, ?_, ?_, ?_, advance_phase js g1⟩
  · intro j hn hne
    have hm : lastRaiseMatches g1 j = false := by
      cases hlr : lastRaiseMatches g1 j with
      | false => rfl
      | true => exact absurd ((lastRaiseMatches_iff g1 j).mp hlr) hne
    refine ⟨?_, rfl, rfl, ?_⟩
    · rw [playerAction_validated js g pid a i p g1 hf hq ht hstep]
      exact afterAction_pass js g1 i j hn hm
    · intro m q hq2
      unfold setTurn at hq2
      simp only at hq2
      rw [get?_setTurnFlags j 0 m] at hq2
      cases hg2 : g1.players.get? m with
      | none =>
        rw [hg2] at hq2
        cases hq2
      | some q0 =>
        rw [hg2] at hq2
        simp only [Option.map] at hq2
        cases hq2
        show ((0 + m) == j) = (m == j)
        rw [Nat.zero_add]
  · intro j hn hex
    rw [playerAction_validated js g pid a i p g1 hf hq ht hstep]
    exact afterAction_close js g1 i j hn ((lastRaiseMatches_iff g1 j).mpr hex)
  · intro hn
    rw [playerAction_validated js g pid a i p g1 hf hq ht hstep]
    exact afterAction_none js g1 i hn

/-- Closed instance of turn_advance_spec: in the example game a folds;
the scan finds seat 1 (seat b, eligible), b is not the last aggressor
(that is seat c), so the action is accepted and the turn passes to
index 1 with the phase still betting. -/
theorem turn_advance_spec_witness :
    (playerAction Ex.js0 Ex.exGame "a" Action.fold).1 = none ∧
    (playerAction Ex.js0 Ex.exGame "a" Action.fold).2.currentPlayerIndex = 1 ∧
    (playerAction Ex.js0 Ex.exGame "a" Action.fold).2.phase = Phase.betting := by
  have H := turn_advance_spec Ex.js0 Ex.exGame "a" Action.fold 0
    (Ex.mkSeat "a" "Alice" 100 0 true 0) Ex.exAfterFold
    (by decide) (by decide) (by decide) (by rfl)
  have hnotlr : ¬(∃ q : Player, Ex.exAfterFold.players.get? 1 = some q ∧
      Ex.exAfterFold.lastRaisePlayerId = some q.id) := by
    rintro ⟨q, hq, hid⟩
    have hb : Ex.exAfterFold.players.get? 1 = some (Ex.mkSeat "b" "Bob" 90 10 false 1) := by
      decide
    rw [hb] at hq
    cases hq
    exact absurd hid (by decide)
  have h2 := H.2.1 1 (by decide) hnotlr
  rw [h2.1]
  exact ⟨rfl, rfl, rfl⟩

end Server

namespace Poker

lemma insertNat_perm (x : Nat) (l : List Nat) : (insertNat x l).Perm (x :: l) := by
  induction l with
  | nil => exact List.Perm.refl _
  | cons y ys ih =>
    simp only [insertNat]
    split
    · exact List.Perm.refl _
    · exact (List.Perm.cons y ih).trans (List.Perm.swap x y ys)

lemma sortNats_perm (l : List Nat) : (sortNats l).Perm l := by
  induction l with
  | nil => exact List.Perm.refl _
  | cons x xs ih =>
    exact (insertNat_perm x (sortNats xs)).trans (List.Perm.cons x ih)

lemma len5_shape (l : List Nat) (h : l.length = 5) :
    ∃ a b c d e : Nat, l = [a, b, c, d, e] := by
  rcases l with _ | ⟨a, l⟩
  · simp at h
  rcases l with _ | ⟨b, l⟩
  · simp at h
  rcases l with _ | ⟨c, l⟩
  · simp at h
  rcases l with _ | ⟨d, l⟩
  · simp at h
  rcases l with _ | ⟨e, l⟩
  · simp at h
  rcases l with _ | ⟨f, l⟩
  · exact ⟨a, b, c, d, e, rfl⟩
  · simp at h

lemma consec5 (a b c d e : Nat) (h : consecCheck [a, b, c, d, e] = true) : e = a + 4 := by
  simp only [consecCheck, Bool.and_eq_true, beq_iff_eq] at h
  omega

lemma rankValue_ge_two (r : Rank) : 2 ≤ rankValue r := by
  cases r <;> decide

lemma mem5_perm (l : List Nat) (hlen : l.length = 5)
    (h2 : 2 ∈ l) (h3 : 3 ∈ l) (h4 : 4 ∈ l) (h5 : 5 ∈ l) (h14 : 14 ∈ l) :
    l.Perm [2, 3, 4, 5, 14] := by
  have hle : (([2, 3, 4, 5, 14] : List Nat) : Multiset Nat) ≤ (l : Multiset Nat) := by
    rw [Multiset.le_iff_count]
    intro a
    by_cases e2 : a = 2
    · subst e2
      simpa using List.count_pos_iff.mpr h2
    · by_cases e3 : a = 3
      · subst e3
        simpa using List.count_pos_iff.mpr h3
      · by_cases e4 : a = 4
        · subst e4
          simpa using List.count_pos_iff.mpr h4
        · by_cases e5 : a = 5
          · subst e5
            simpa using List.count_pos_iff.mpr h5
          · by_cases e14 : a = 14
            · subst e14
              simpa using List.count_pos_iff.mpr h14
            · have : Multiset.count a (([2, 3, 4, 5, 14] : List Nat) : Multiset Nat) = 0 := by
                simp [List.count_cons, e2, e3, e4, e5, e14]
              rw [this]
              exact Nat.zero_le _
  have hcard : (l : Multiset Nat).card ≤ (([2, 3, 4, 5, 14] : List Nat) : Multiset Nat).card := by
    simp [hlen]
  have heq := Multiset.eq_of_le_of_card_le hle hcard
  exact Multiset.coe_eq_coe.mp heq.symm

end Poker

namespace Poker

lemma evalFive_straight_value (cs : List Card)
    (h : (evaluateFiveCardHand cs).rank = "Straight") :
    (consecCheck (cardVals cs) = true ∧
      (evaluateFiveCardHand cs).value = 4 * 1000000 + (cardVals cs).getD 4 0) ∨
    (wheelTest cs = true ∧
      (evaluateFiveCardHand cs).value =
        4 * 1000000 + (1 :: (cardVals cs).dropLast).getD 4 0) := by
  simp only [evaluateFiveCardHand] at h ⊢
  split at h
  · exact absurd h ((by decide : ("Royal Flush" : String) ≠ "Straight"))
  · split at h
    · exact absurd h ((by decide : ("Straight Flush" : String) ≠ "Straight"))
    · split at h
      · exact absurd h ((by decide : ("Four of a Kind" : String) ≠ "Straight"))
      · split at h
        · exact absurd h ((by decide : ("Full House" : String) ≠ "Straight"))
        · split at h
          · exact absurd h ((by decide : ("Flush" : String) ≠ "Straight"))
          · split at h
            · rename_i hc1 hc2 hc3 hc4 hc5 hc6
              rw [if_neg hc1, if_neg hc2, if_neg hc3, if_neg hc4, if_neg hc5, if_pos hc6]
              simp only [straightTest] at hc6
              cases hw : wheelTest cs with
              | false =>
                left
                rw [hw, Bool.or_false] at hc6
                refine ⟨hc6, ?_⟩
                simp only [cardVals2, hw, Bool.false_eq_true, if_false, ite_false]
              | true =>
                right
                refine ⟨rfl, ?_⟩
                simp only [cardVals2, hw, if_true, ite_true]
            · split at h
              · exact absurd h ((by decide : ("Three of a Kind" : String) ≠ "Straight"))
              · split at h
                · exact absurd h ((by decide : ("Two Pair" : String) ≠ "Straight"))
                · split at h
                  · exact absurd h ((by decide : ("One Pair" : String) ≠ "Straight"))
                  · exact absurd h ((by decide : ("High Card" : String) ≠ "Straight"))

end Poker

namespace Poker

/-- C8: the wheel A-2-3-4-5 with mixed suits evaluates as a Straight
with comparable value 4000005, strictly below the 6-high straight
2-3-4-5-6 (4000006), and indeed strictly below every other straight:
every 5-card hand that evaluates to the Straight category and whose
rank values are not a permutation of {A,2,3,4,5} receives a strictly
greater comparable value than the wheel. -/
theorem wheel_lowest_straight :
    (evaluateFiveCardHand Ex.wheelHand).rank = "Straight" ∧
    (evaluateFiveCardHand Ex.wheelHand).value = 4 * 1000000 + 5 ∧
    (evaluateFiveCardHand Ex.sixHighHand).rank = "Straight" ∧
    (evaluateFiveCardHand Ex.sixHighHand).value = 4 * 1000000 + 6 ∧
    (evaluateFiveCardHand Ex.wheelHand).value < (evaluateFiveCardHand Ex.sixHighHand).value ∧
    (∀ cs : List Card, cs.length = 5 →
      (evaluateFiveCardHand cs).rank = "Straight" →
      ¬ ((cs.map (fun c => rankValue c.rank)).Perm [2, 3, 4, 5, 14]) →
      (evaluateFiveCardHand Ex.wheelHand).value < (evaluateFiveCardHand cs).value) := by
  refine ⟨by decide, by decide, by decide, by decide, by decide, ?_⟩
  intro cs hlen hrank hnw
  have hv := evalFive_straight_value cs hrank
  have hwheelval : (evaluateFiveCardHand Ex.wheelHand).value = 4 * 1000000 + 5 := by decide
  rw [hwheelval]
  have hperm := sortNats_perm (cs.map (fun c => rankValue c.rank))
  have hSlen : (cardVals cs).length = 5 := by
    simp only [cardVals]
    rw [hperm.length_eq, List.length_map, hlen]
  obtain ⟨a, b, c, d, e, hS⟩ := len5_shape (cardVals cs) hSlen
  rcases hv with ⟨hcc, hval⟩ | ⟨hw, hval⟩
  · rw [hS] at hcc
    have he : e = a + 4 := consec5 a b c d e hcc
    have haS : a ∈ cardVals cs := by
      rw [hS]
      simp
    have haV : a ∈ cs.map (fun c => rankValue c.rank) := hperm.mem_iff.mp haS
    obtain ⟨c0, hc0, hval0⟩ := List.mem_map.mp haV
    have ha2 : 2 ≤ a := by
      rw [← hval0]
      exact rankValue_ge_two c0.rank
    rw [hval, hS]
    have hgd : ([a, b, c, d, e] : List Nat).getD 4 0 = e := rfl
    rw [hgd]
    omega
  · exfalso
    simp only [wheelTest, Bool.and_eq_true] at hw
    obtain ⟨⟨⟨⟨⟨hnc, h14⟩, h2⟩, h3⟩, h4⟩, h5⟩ := hw
    have hm14 : (14 : Nat) ∈ cardVals cs := by simpa using h14
    have hm2 : (2 : Nat) ∈ cardVals cs := by simpa using h2
    have hm3 : (3 : Nat) ∈ cardVals cs := by simpa using h3
    have hm4 : (4 : Nat) ∈ cardVals cs := by simpa using h4
    have hm5 : (5 : Nat) ∈ cardVals cs := by simpa using h5
    have hperm5 := mem5_perm (cardVals cs) hSlen hm2 hm3 hm4 hm5 hm14
    exact hnw (hperm.symm.trans hperm5)

/-- Closed instance of the universal part of wheel_lowest_straight:
the 7-high straight 3-4-5-6-7 is a Straight of a different rank
multiset than the wheel, so its value exceeds the wheel value
4000005. -/
theorem wheel_lowest_straight_witness :
    (evaluateFiveCardHand Ex.wheelHand).value <
      (evaluateFiveCardHand Ex.sevenHighHand).value :=
  wheel_lowest_straight.2.2.2.2.2 Ex.sevenHighHand (by decide) (by decide) (by decide)

end Poker
